import Mathlib

set_option maxRecDepth 100000

/-!
Verification of the charset / line-ending detection core of
`chartset-normalizer-python-rs` (src/src/core/lib.rs), as a shallow
embedding in Lean.  Byte buffers are `List Nat` (each entry < 256 in
practice), decoded text is a `List Nat` of Unicode scalar values, and the
f32 scores of the Rust code are modelled exactly as unnormalized integer
fractions (`Frac`), compared by cross-multiplication.  The two external
capabilities of the pipeline (the statistical base guesser `chardet` and
the codec provider `encoding_rs`) are parameters of the embedding,
gathered in a `Caps` structure, exactly as the specification describes
them ("pluggable capabilities").
-/

namespace CharsetCore

/-! ### ASCII string primitives

The Rust code applies `to_lowercase`, `replace`, `contains`,
`starts_with` to ASCII encoding labels only.  The embeddings below model
those operations character-wise (exact on ASCII data). -/

def lowerChar (c : Char) : Char :=
  if 65 ≤ c.toNat ∧ c.toNat ≤ 90 then Char.ofNat (c.toNat + 32) else c

def strLower (s : String) : String := ⟨s.data.map lowerChar⟩

/-- `s.replace(a, b)` for one-character patterns, as used by the source. -/
def mapReplaceChar (a b : Char) (s : String) : String :=
  ⟨s.data.map (fun c => if c = a then b else c)⟩

/-- `s.replace(a, "")` for a one-character pattern, as used by the source. -/
def dropAllChar (a : Char) (s : String) : String :=
  ⟨s.data.filter (fun c => decide (¬ c = a))⟩

def charsLead : List Char → List Char → Bool
  | [], _ => true
  | a :: as, l =>
    match l with
    | [] => false
    | b :: bs => a == b && charsLead as bs

/-- Rust `slice::starts_with` on byte buffers. -/
def bytesLead : List Nat → List Nat → Bool
  | [], _ => true
  | a :: as, l =>
    match l with
    | [] => false
    | b :: bs => a == b && bytesLead as bs

def charsWithin (pat : List Char) : List Char → Bool
  | [] => charsLead pat []
  | b :: bs => charsLead pat (b :: bs) || charsWithin pat bs

/-- Rust `str::contains` (substring search). -/
def strContains (s pat : String) : Bool := charsWithin pat.data s.data

/-- Rust `str::starts_with`. -/
def strStartsWith (s pat : String) : Bool := charsLead pat.data s.data

/-! ### Exact fractions

The Rust code computes `error_ratio` and `score` in `f32` and only ever
adds, subtracts and compares them.  We model those values as exact
fractions of integers without normalization, so every comparison is the
exact real-number comparison. -/

structure Frac where
  num : Int
  den : Int
  deriving DecidableEq

def fracLt (a b : Frac) : Bool := decide (a.num * b.den < b.num * a.den)

def fracEq (a b : Frac) : Bool := decide (a.num * b.den = b.num * a.den)

def fracAdd (a b : Frac) : Frac := ⟨a.num * b.den + b.num * a.den, a.den * b.den⟩

def fracSub (a b : Frac) : Frac := ⟨a.num * b.den - b.num * a.den, a.den * b.den⟩

def Frac.toRat (a : Frac) : ℚ := (a.num : ℚ) / (a.den : ℚ)

/-! ### Constants and result type (src/src/core/lib.rs, lines 8-9, 45-52) -/

def CHUNK_SIZE : Nat := 8192

def MAX_SAMPLE_SIZE : Nat := 1024 * 1024

/-- The detection result produced by both call shapes.  Lines 45-52 of
the source: it carries the encoding, the raw bytes consumed and the
decoded text — and nothing else. -/
structure CharsetMatch where
  encoding : String
  raw_bytes : List Nat
  decoded_text : List Nat
  deriving DecidableEq

/-! ### normalize_encoding_name (lines 12-42) -/

def normalize_encoding_name (encoding : String) : String :=
  let normalized := mapReplaceChar '-' '_' (strLower encoding)
  if normalized = "utf_8" ∨ normalized = "utf8" then "utf_8"
  else if normalized = "utf_16" ∨ normalized = "utf16" then "utf_16"
  else if normalized = "utf_16_le" ∨ normalized = "utf16_le" ∨ normalized = "utf_16le" ∨ normalized = "utf16le" then "utf_16le"
  else if normalized = "utf_16_be" ∨ normalized = "utf16_be" ∨ normalized = "utf_16be" ∨ normalized = "utf16be" then "utf_16be"
  else if normalized = "iso_8859_1" ∨ normalized = "iso8859_1" ∨ normalized = "latin_1" ∨ normalized = "latin1" then "latin_1"
  else if normalized = "windows_1252" ∨ normalized = "cp_1252" then "cp1252"
  else if normalized = "windows_1256" ∨ normalized = "cp_1256" then "cp1256"
  else if normalized = "windows_1255" ∨ normalized = "cp_1255" then "cp1255"
  else if normalized = "windows_1253" ∨ normalized = "cp_1253" then "cp1253"
  else if normalized = "windows_1251" ∨ normalized = "cp_1251" then "cp1251"
  else if normalized = "windows_1254" ∨ normalized = "cp_1254" then "cp1254"
  else if normalized = "windows_1250" ∨ normalized = "cp_1250" then "cp1250"
  else if normalized = "windows_949" ∨ normalized = "cp_949" then "cp949"
  else if normalized = "shift_jis" ∨ normalized = "shift_jis_2004" then "shift_jis"
  else if normalized = "euc_jp" ∨ normalized = "euc-jp" then "euc_jp"
  else if normalized = "euc_kr" ∨ normalized = "euc-kr" then "euc_kr"
  else if normalized = "gb2312" ∨ normalized = "gb_2312" then "gb2312"
  else if normalized = "gbk" then "gbk"
  else if normalized = "big5" then "big5"
  else if normalized = "macintosh" ∨ normalized = "mac_roman" then "mac_roman"
  else if normalized = "mac_cyrillic" ∨ normalized = "x_mac_cyrillic" then "mac_cyrillic"
  else if normalized = "koi8_r" ∨ normalized = "koi8r" then "koi8_r"
  else if normalized = "koi8_u" then "koi8_u"
  else if strStartsWith normalized "cp_" then dropAllChar '_' normalized
  else normalized

/-! ### analyze_byte_patterns (lines 66-104)

The f32 ratio comparisons `count / total  ⋈  c` are modelled exactly by
cross-multiplication with the rational constants 0.55 = 11/20,
0.35 = 7/20, 0.65 = 13/20. -/

def analyze_byte_patterns (buffer : List Nat) : List String :=
  let high_bytes := (buffer.filter (fun b => decide (0x80 ≤ b))).length
  if high_bytes = 0 then []
  else
    let total_len := buffer.length
    let lower_high := (buffer.filter (fun b => decide (0xC0 ≤ b ∧ b < 0xE0))).length
    let upper_high := (buffer.filter (fun b => decide (0xE0 ≤ b))).length
    let arabic_specific := (buffer.filter (fun b => decide (0xC0 ≤ b ∧ b ≤ 0xE5))).length
    let turkish_specific := (buffer.filter (fun b => decide (b = 0xF0 ∨ b = 0xFD ∨ b = 0xFE))).length
    let hints :=
      if 11 * total_len < 20 * upper_high ∧ 20 * lower_high < 7 * total_len then ["likely_mac_cyrillic"]
      else if 7 * total_len < 20 * arabic_specific ∧ 20 * upper_high < 13 * total_len then ["likely_arabic"]
      else []
    if 2 ≤ turkish_specific then hints ++ ["likely_turkish"] else hints

/-! ### detect_utf16_pattern (lines 107-129) -/

def detect_utf16_pattern (buffer : List Nat) : Option String :=
  if buffer.length < 20 then none
  else
    let sample_size := min buffer.length 1000
    let sample := buffer.take sample_size
    let even_nulls := (sample.enum.filter (fun p => decide (p.1 % 2 = 0 ∧ p.2 = 0))).length
    let odd_nulls := (sample.enum.filter (fun p => decide (p.1 % 2 = 1 ∧ p.2 = 0))).length
    let threshold := sample_size / 16
    if threshold < odd_nulls ∧ even_nulls < threshold / 2 then some "UTF-16LE"
    else if threshold < even_nulls ∧ odd_nulls < threshold / 2 then some "UTF-16BE"
    else none

/-! ### detect_language_hints (lines 132-187)

Ratio thresholds 0.3, 0.2, 0.1 modelled exactly by cross-multiplication.
The six Turkish letters are U+011F, U+011E, U+0131, U+0130, U+015F,
U+015E. -/

def detect_language_hints (text : List Nat) : List String :=
  let total_chars := max text.length 1
  let arabic_chars := (text.filter (fun c => decide ((0x0600 ≤ c ∧ c ≤ 0x06FF) ∨ (0xFB50 ≤ c ∧ c ≤ 0xFDFF) ∨ (0xFE70 ≤ c ∧ c ≤ 0xFEFF)))).length
  let cyrillic_chars := (text.filter (fun c => decide ((0x0400 ≤ c ∧ c ≤ 0x04FF) ∨ (0x0500 ≤ c ∧ c ≤ 0x052F)))).length
  let turkish_specific := (text.filter (fun c => decide (c = 0x11F ∨ c = 0x11E ∨ c = 0x131 ∨ c = 0x130 ∨ c = 0x15F ∨ c = 0x15E))).length
  let korean_chars := (text.filter (fun c => decide ((0xAC00 ≤ c ∧ c ≤ 0xD7AF) ∨ (0x1100 ≤ c ∧ c ≤ 0x11FF) ∨ (0x3130 ≤ c ∧ c ≤ 0x318F)))).length
  let h1 := if 3 * total_chars < 10 * arabic_chars then ["arabic"] else []
  let h2 := if total_chars < 5 * cyrillic_chars ∧ 10 * arabic_chars < total_chars then h1 ++ ["cyrillic"] else h1
  let h3 := if 3 ≤ turkish_specific then h2 ++ ["turkish"] else h2
  if total_chars < 5 * korean_chars then h3 ++ ["korean"] else h3

/-! ### External capabilities

`guess` is `chardet::detect` (only the label component is used by the
source), `for_label` is `encoding_rs::Encoding::for_label` returning the
resolved encoding's canonical `name()`, and `decode` is
`Encoding::decode` keyed by that canonical name, returning the decoded
scalar values and the `had_errors` flag. -/

structure Caps where
  guess : List Nat → String
  for_label : String → Option String
  decode : String → List Nat → List Nat × Bool

/-! ### Seed detection: BOM sniffing, UTF-16 heuristic, chardet remap
(lines 204-265 of `from_path`) -/

def seedOf (caps : Caps) (buffer : List Nat) : String × Nat :=
  if bytesLead [0xEF, 0xBB, 0xBF] buffer then ("utf_8", 3)
  else if bytesLead [0xFF, 0xFE] buffer then ("UTF-16LE", 2)
  else if bytesLead [0xFE, 0xFF] buffer then ("UTF-16BE", 2)
  else if bytesLead [0xFF, 0xFE, 0x00, 0x00] buffer then ("UTF-32LE", 4)
  else if bytesLead [0x00, 0x00, 0xFE, 0xFF] buffer then ("UTF-32BE", 4)
  else
    match detect_utf16_pattern buffer with
    | some utf16_encoding => (utf16_encoding, 0)
    | none =>
      let byte_hints := analyze_byte_patterns buffer
      let detected := mapReplaceChar '-' '_' (strLower (caps.guess buffer))
      let encoding :=
        if detected = "utf_8" ∨ detected = "utf8" ∨ detected = "ascii" then "UTF-8"
        else if detected = "big5" ∨ detected = "big_5" then "Big5"
        else if detected = "gb2312" ∨ detected = "gb_2312" ∨ detected = "gbk" then "GBK"
        else if detected = "windows_1252" ∨ detected = "cp1252" ∨ detected = "iso_8859_1" then
          (if byte_hints.contains "likely_turkish" then "windows-1254" else "windows-1252")
        else if detected = "windows_1256" ∨ detected = "cp1256" ∨ detected = "iso_8859_6" then "windows-1256"
        else if detected = "windows_1255" ∨ detected = "cp1255" ∨ detected = "iso_8859_8" then "windows-1255"
        else if detected = "windows_1253" ∨ detected = "cp1253" ∨ detected = "iso_8859_7" then "windows-1253"
        else if detected = "windows_1251" ∨ detected = "cp1251" ∨ detected = "iso_8859_5" then
          (if byte_hints.contains "likely_arabic" then "windows-1256"
           else if byte_hints.contains "likely_mac_cyrillic" then "x-mac-cyrillic"
           else "windows-1251")
        else if detected = "windows_1254" ∨ detected = "cp1254" ∨ detected = "iso_8859_9" then "windows-1254"
        else if detected = "windows_1250" ∨ detected = "cp1250" ∨ detected = "iso_8859_2" then "windows-1250"
        else if detected = "euc_kr" ∨ detected = "cp949" ∨ detected = "windows_949" ∨ detected = "ks_c_5601_1987" then "windows-949"
        else if detected = "shift_jis" ∨ detected = "shift_jisx0213" ∨ detected = "cp932" then "shift_jis"
        else if detected = "euc_jp" then "EUC-JP"
        else if detected = "mac_cyrillic" ∨ detected = "x_mac_cyrillic" then "x-mac-cyrillic"
        else if detected = "koi8_r" ∨ detected = "koi8r" then "KOI8-R"
        else "UTF-8"
      (encoding, 0)

/-! ### Candidate list (lines 271-300) -/

def FALLBACK : List String :=
  ["UTF-8", "x-mac-cyrillic", "windows-1252", "windows-1256", "windows-1255",
   "windows-1253", "windows-1251", "windows-1254", "windows-1250", "windows-949",
   "Big5", "GBK", "shift_jis", "EUC-JP", "EUC-KR", "mac-cyrillic", "KOI8-R", "ISO-8859-1"]

def encodingsToTry (seed : String) : List String :=
  FALLBACK.foldl (fun acc enc => if acc.contains enc then acc else acc ++ [enc]) [seed]

/-! ### One decode trial and its score (lines 308-362) -/

def erOf (decoded : List Nat) : Frac :=
  ⟨((decoded.filter (fun c => decide (c = 0xFFFD))).length : Int),
   ((max decoded.length 1 : Nat) : Int)⟩

def seed_bonus (label seed : String) : Frac :=
  if label = seed then ⟨1, 20⟩ else ⟨0, 1⟩

def arabic_bonus (lang : List String) (label : String) : Frac :=
  if lang.contains "arabic" && strContains label "1256" then ⟨1, 2⟩ else ⟨0, 1⟩

def turkish_bonus (lang : List String) (label : String) : Frac :=
  if lang.contains "turkish" && strContains label "1254" then ⟨2, 5⟩ else ⟨0, 1⟩

def korean_bonus (lang : List String) (label : String) : Frac :=
  if lang.contains "korean" then
    (if strContains label "949" || strContains label "windows-949" then ⟨2, 5⟩
     else if strContains label "euc-kr" || strContains label "EUC-KR" then ⟨1, 5⟩
     else ⟨0, 1⟩)
  else ⟨0, 1⟩

def cyrillic_bonus (lang : List String) (label : String) : Frac :=
  if lang.contains "cyrillic" then
    (if strContains label "mac-cyrillic" || strContains label "x-mac-cyrillic" then ⟨1, 2⟩
     else if strContains label "1251" then ⟨1, 5⟩
     else ⟨0, 1⟩)
  else ⟨0, 1⟩

def arabic_penalty (lang : List String) (label : String) : Frac :=
  if lang.contains "arabic" && strContains label "1251" then ⟨-1, 2⟩ else ⟨0, 1⟩

def cyrillic_penalty (lang : List String) (label : String) : Frac :=
  if lang.contains "cyrillic" && strContains label "1256" then ⟨-9, 10⟩ else ⟨0, 1⟩

def mac_byte_bonus (byteHints : List String) (label : String) : Frac :=
  if byteHints.contains "likely_mac_cyrillic" && (strContains label "mac-cyrillic" || strContains label "x-mac-cyrillic") then ⟨2, 5⟩ else ⟨0, 1⟩

/-- The sequence of `score = 1.0 - error_ratio` and `score += …`
statements of lines 317-362, as one left-nested exact sum. -/
def scoreOf (seed : String) (byteHints : List String) (label : String) (decoded : List Nat) : Frac :=
  let er := erOf decoded
  let lang := detect_language_hints decoded
  fracAdd (fracAdd (fracAdd (fracAdd (fracAdd (fracAdd (fracAdd (fracAdd
    (fracSub ⟨1, 1⟩ er)
    (seed_bonus label seed)) (arabic_bonus lang label)) (turkish_bonus lang label))
    (korean_bonus lang label)) (cyrillic_bonus lang label)) (arabic_penalty lang label))
    (cyrillic_penalty lang label)) (mac_byte_bonus byteHints label)

structure Trial where
  name : String
  text : List Nat
  er : Frac
  score : Frac
  had : Bool
  deriving DecidableEq

/-- Lines 308-362: resolve the label, decode the slice, compute the
error ratio and the score.  `none` models an unsupported label
(`Encoding::for_label` returned `None`), which the loop skips. -/
def trialOf (caps : Caps) (seed : String) (byteHints : List String) (slice : List Nat) (label : String) : Option Trial :=
  match caps.for_label label with
  | none => none
  | some name =>
    let dec := caps.decode name slice
    some { name := name, text := dec.1, er := erOf dec.1,
           score := scoreOf seed byteHints label dec.1, had := dec.2 }

/-! ### The decode-and-score loop (lines 302-376) -/

structure LoopState where
  best_encoding : Option String
  best_text : List Nat
  min_error_ratio : Frac
  best_score : Frac
  deriving DecidableEq

/-- The exact value of `f32::MIN`, the initial `best_score`. -/
def F32_MIN : Frac := ⟨-(2 ^ 128 - 2 ^ 104), 1⟩

def initState : LoopState := ⟨none, [], ⟨1, 1⟩, F32_MIN⟩

/-- Line 364: `score > best_score || (score == best_score && error_ratio < min_error_ratio)`. -/
def betterB (t : Trial) (st : LoopState) : Bool :=
  fracLt st.best_score t.score || (fracEq t.score st.best_score && fracLt t.er st.min_error_ratio)

/-- Line 371: `!had_errors && error_ratio == 0.0 && score > 1.0`. -/
def breakB (t : Trial) : Bool :=
  !t.had && fracEq t.er ⟨0, 1⟩ && fracLt ⟨1, 1⟩ t.score

/-- One iteration of the loop body: replace the running best when the
trial improves on it, and report whether the early-exit fires. -/
def loopStep (st : LoopState) (t : Trial) : LoopState × Bool :=
  if betterB t st then (⟨some t.name, t.text, t.er, t.score⟩, breakB t) else (st, false)

/-- The loop of lines 307-376.  Returns the final state together with
the list of labels whose trial was actually decoded and scored (in
order); unsupported labels are skipped and a fired early-exit ends the
list. -/
def decodeLoop (caps : Caps) (seed : String) (byteHints : List String) (slice : List Nat) : LoopState → List String → LoopState × List String
  | st, [] => (st, [])
  | st, label :: rest =>
    match trialOf caps seed byteHints slice label with
    | none => decodeLoop caps seed byteHints slice st rest
    | some t =>
      let p := loopStep st t
      if p.2 then (p.1, [label])
      else
        let q := decodeLoop caps seed byteHints slice p.1 rest
        (q.1, label :: q.2)

/-! ### Post-processing (lines 378-392) -/

def finalizeEncoding (best : Option String) : String :=
  let final0 := best.getD "UTF-8"
  let final1 :=
    if strContains (strLower final0) "euc-kr" || strContains (strLower final0) "euc_kr"
    then "windows-949" else final0
  normalize_encoding_name final1

/-- The final loop state of an analysis of `buffer` (lines 267-376):
the seed and skip come from the BOM/UTF-16/chardet stage, the loop runs
on the buffer with the BOM skipped. -/
def analyzeLoopOf (caps : Caps) (buffer : List Nat) : LoopState :=
  (decodeLoop caps (seedOf caps buffer).1 (analyze_byte_patterns buffer)
    (buffer.drop (seedOf caps buffer).2) initState
    (encodingsToTry (seedOf caps buffer).1)).1

/-- The normalized encoding string reported by `from_path` for the
bytes it read (lines 378-392). -/
def analyzeEncoding (caps : Caps) (buffer : List Nat) : String :=
  finalizeEncoding (analyzeLoopOf caps buffer).best_encoding

/-- The analysis performed by `from_path` on the bytes it read
(lines 204-392). -/
@[reducible] def analyzeBytes (caps : Caps) (buffer : List Nat) : CharsetMatch :=
  { encoding := analyzeEncoding caps buffer,
    raw_bytes := buffer,
    decoded_text := (analyzeLoopOf caps buffer).best_text }

/-- `from_path` (lines 191-392), with the byte acquisition modelled as
the already-read content of the file.  After a successful read the
function never fails: there is no emptiness check on this path. -/
def from_path (caps : Caps) (fileBytes : List Nat) : Except String CharsetMatch :=
  Except.ok (analyzeBytes caps fileBytes)

/-! ### The streaming variant `from_path_stream` (lines 398-599)

The analysis portion of `from_path_stream` is a textual copy of the one
in `from_path`; it is embedded below as its own set of definitions,
mirroring that duplication, so that their agreement is a theorem rather
than a definitional identity. -/

/-- Lines 411-429: read in chunks of `CHUNK_SIZE` until at least
`maxSize` bytes were read or the source is exhausted.  The check runs
after a chunk is appended.  Structured with an explicit fuel argument
(the source length bounds the number of iterations). -/
def readSampleAux : Nat → List Nat → Nat → List Nat
  | 0, _, _ => []
  | _ + 1, [], _ => []
  | f + 1, b :: src, maxSize =>
    let chunk := (b :: src).take CHUNK_SIZE
    let rest := (b :: src).drop CHUNK_SIZE
    if maxSize ≤ chunk.length then chunk
    else chunk ++ readSampleAux f rest (maxSize - chunk.length)

def readSample (src : List Nat) (maxSize : Nat) : List Nat :=
  readSampleAux src.length src maxSize

def seedOfStream (caps : Caps) (buffer : List Nat) : String × Nat :=
  if bytesLead [0xEF, 0xBB, 0xBF] buffer then ("utf_8", 3)
  else if bytesLead [0xFF, 0xFE] buffer then ("UTF-16LE", 2)
  else if bytesLead [0xFE, 0xFF] buffer then ("UTF-16BE", 2)
  else if bytesLead [0xFF, 0xFE, 0x00, 0x00] buffer then ("UTF-32LE", 4)
  else if bytesLead [0x00, 0x00, 0xFE, 0xFF] buffer then ("UTF-32BE", 4)
  else
    match detect_utf16_pattern buffer with
    | some utf16_encoding => (utf16_encoding, 0)
    | none =>
      let byte_hints := analyze_byte_patterns buffer
      let detected := mapReplaceChar '-' '_' (strLower (caps.guess buffer))
      let encoding :=
        if detected = "utf_8" ∨ detected = "utf8" ∨ detected = "ascii" then "UTF-8"
        else if detected = "big5" ∨ detected = "big_5" then "Big5"
        else if detected = "gb2312" ∨ detected = "gb_2312" ∨ detected = "gbk" then "GBK"
        else if detected = "windows_1252" ∨ detected = "cp1252" ∨ detected = "iso_8859_1" then
          (if byte_hints.contains "likely_turkish" then "windows-1254" else "windows-1252")
        else if detected = "windows_1256" ∨ detected = "cp1256" ∨ detected = "iso_8859_6" then "windows-1256"
        else if detected = "windows_1255" ∨ detected = "cp1255" ∨ detected = "iso_8859_8" then "windows-1255"
        else if detected = "windows_1253" ∨ detected = "cp1253" ∨ detected = "iso_8859_7" then "windows-1253"
        else if detected = "windows_1251" ∨ detected = "cp1251" ∨ detected = "iso_8859_5" then
          (if byte_hints.contains "likely_arabic" then "windows-1256"
           else if byte_hints.contains "likely_mac_cyrillic" then "x-mac-cyrillic"
           else "windows-1251")
        else if detected = "windows_1254" ∨ detected = "cp1254" ∨ detected = "iso_8859_9" then "windows-1254"
        else if detected = "windows_1250" ∨ detected = "cp1250" ∨ detected = "iso_8859_2" then "windows-1250"
        else if detected = "euc_kr" ∨ detected = "cp949" ∨ detected = "windows_949" ∨ detected = "ks_c_5601_1987" then "windows-949"
        else if detected = "shift_jis" ∨ detected = "shift_jisx0213" ∨ detected = "cp932" then "shift_jis"
        else if detected = "euc_jp" then "EUC-JP"
        else if detected = "mac_cyrillic" ∨ detected = "x_mac_cyrillic" then "x-mac-cyrillic"
        else if detected = "koi8_r" ∨ detected = "koi8r" then "KOI8-R"
        else "UTF-8"
      (encoding, 0)

def FALLBACK_STREAM : List String :=
  ["UTF-8", "x-mac-cyrillic", "windows-1252", "windows-1256", "windows-1255",
   "windows-1253", "windows-1251", "windows-1254", "windows-1250", "windows-949",
   "Big5", "GBK", "shift_jis", "EUC-JP", "EUC-KR", "mac-cyrillic", "KOI8-R", "ISO-8859-1"]

def encodingsToTryStream (seed : String) : List String :=
  FALLBACK_STREAM.foldl (fun acc enc => if acc.contains enc then acc else acc ++ [enc]) [seed]

def trialOfStream (caps : Caps) (seed : String) (byteHints : List String) (slice : List Nat) (label : String) : Option Trial :=
  match caps.for_label label with
  | none => none
  | some name =>
    let dec := caps.decode name slice
    some { name := name, text := dec.1, er := erOf dec.1,
           score := scoreOf seed byteHints label dec.1, had := dec.2 }

def loopStepStream (st : LoopState) (t : Trial) : LoopState × Bool :=
  if betterB t st then (⟨some t.name, t.text, t.er, t.score⟩, breakB t) else (st, false)

def decodeLoopStream (caps : Caps) (seed : String) (byteHints : List String) (slice : List Nat) : LoopState → List String → LoopState × List String
  | st, [] => (st, [])
  | st, label :: rest =>
    match trialOfStream caps seed byteHints slice label with
    | none => decodeLoopStream caps seed byteHints slice st rest
    | some t =>
      let p := loopStepStream st t
      if p.2 then (p.1, [label])
      else
        let q := decodeLoopStream caps seed byteHints slice p.1 rest
        (q.1, label :: q.2)

def finalizeEncodingStream (best : Option String) : String :=
  let final0 := best.getD "UTF-8"
  let final1 :=
    if strContains (strLower final0) "euc-kr" || strContains (strLower final0) "euc_kr"
    then "windows-949" else final0
  normalize_encoding_name final1

def analyzeLoopOfStream (caps : Caps) (buffer : List Nat) : LoopState :=
  (decodeLoopStream caps (seedOfStream caps buffer).1 (analyze_byte_patterns buffer)
    (buffer.drop (seedOfStream caps buffer).2) initState
    (encodingsToTryStream (seedOfStream caps buffer).1)).1

def analyzeEncodingStream (caps : Caps) (buffer : List Nat) : String :=
  finalizeEncodingStream (analyzeLoopOfStream caps buffer).best_encoding

/-- The analysis performed by `from_path_stream` on the sampled bytes
(lines 437-598). -/
@[reducible] def analyzeBytesStream (caps : Caps) (buffer : List Nat) : CharsetMatch :=
  { encoding := analyzeEncodingStream caps buffer,
    raw_bytes := buffer,
    decoded_text := (analyzeLoopOfStream caps buffer).best_text }

/-- `from_path_stream` (lines 398-599): sample at most roughly
`maxSampleSize` bytes, fail on an empty sample (lines 432-434), then
run the copied analysis. -/
def from_path_stream (caps : Caps) (fileBytes : List Nat) (maxSampleSize : Option Nat) : Except String CharsetMatch :=
  let maxSize := maxSampleSize.getD MAX_SAMPLE_SIZE
  let buffer := readSample fileBytes maxSize
  if buffer = [] then Except.error "File is empty"
  else Except.ok (analyzeBytesStream caps buffer)

/-! ### Newline classification

Modelled from the spec: the NewlineClassifier component (spec §4.1) and
the `newlines` field of the reported result are not present in
src/src/core/lib.rs — the Rust `CharsetMatch` carries only `encoding`,
`raw_bytes` and `decoded_text`.  The definitions below model the missing
part from the specification's words: a single linear scan counting CRLF
pairs (advancing two bytes), bare CR bytes and bare LF bytes, and the
stated classification priority. -/

inductive NewlineStyle where
  | CRLF
  | LF
  | CR
  deriving DecidableEq

/-- Modelled from the spec (§4.1): one scan, counting, in order,
(CRLF pairs, bare CR bytes, bare LF bytes). -/
def newline_counts : List Nat → Nat × Nat × Nat
  | [] => (0, 0, 0)
  | [b] =>
    if b = 13 then (0, 1, 0) else if b = 10 then (0, 0, 1) else (0, 0, 0)
  | b :: b2 :: rest =>
    if b = 13 ∧ b2 = 10 then
      let p := newline_counts rest
      (p.1 + 1, p.2.1, p.2.2)
    else if b = 13 then
      let p := newline_counts (b2 :: rest)
      (p.1, p.2.1 + 1, p.2.2)
    else if b = 10 then
      let p := newline_counts (b2 :: rest)
      (p.1, p.2.1, p.2.2 + 1)
    else newline_counts (b2 :: rest)

/-- Modelled from the spec (§4.1): CRLF if any CRLF pair occurred, else
LF if any bare LF occurred, else CR if any bare CR occurred, else LF. -/
def classify_newlines (bs : List Nat) : NewlineStyle :=
  let p := newline_counts bs
  if 0 < p.1 then NewlineStyle.CRLF
  else if 0 < p.2.2 then NewlineStyle.LF
  else if 0 < p.2.1 then NewlineStyle.CR
  else NewlineStyle.LF

/-- Whether the two-byte sequence CR LF occurs somewhere in the list. -/
def hasCRLF : List Nat → Bool
  | b :: b2 :: rest => (b == 13 && b2 == 10) || hasCRLF (b2 :: rest)
  | _ => false

/-- Modelled from the spec (§6): the reported analysis result,
`{encoding, newlines}`; the encoding is the one the Rust core computes
and the newlines field is the spec-modelled classification of the raw
sample. -/
structure AnalysisReport where
  encoding : String
  newlines : NewlineStyle
  deriving DecidableEq

def reportOf (caps : Caps) (buffer : List Nat) : AnalysisReport :=
  { encoding := (analyzeBytes caps buffer).encoding,
    newlines := classify_newlines buffer }

/-! ### Concrete capability instances used by the witnesses

Modelled from the spec (§6): the external CodecProvider and BaseGuesser
capabilities (the `encoding_rs` and `chardet` crates) are outside this
repository's sources; the instances below realize them concretely so
that witnesses and counterexamples can be evaluated.  `for_label`
follows the WHATWG Encoding standard's label table (which `encoding_rs`
implements) on every label this pipeline can submit; in particular
"utf_8", "mac-cyrillic", "UTF-32LE" and "UTF-32BE" are not WHATWG labels
and resolve to none, and "windows-949", "EUC-KR" (and "ISO-8859-1",
"windows-1252") resolve to the same encoding objects, whose canonical
names are "EUC-KR" (resp. "windows-1252"). -/

def encodingRsLabelName (label : String) : Option String :=
  if label = "UTF-8" then some "UTF-8"
  else if label = "x-mac-cyrillic" then some "x-mac-cyrillic"
  else if label = "windows-1252" then some "windows-1252"
  else if label = "windows-1256" then some "windows-1256"
  else if label = "windows-1255" then some "windows-1255"
  else if label = "windows-1253" then some "windows-1253"
  else if label = "windows-1251" then some "windows-1251"
  else if label = "windows-1254" then some "windows-1254"
  else if label = "windows-1250" then some "windows-1250"
  else if label = "windows-949" then some "EUC-KR"
  else if label = "Big5" then some "Big5"
  else if label = "GBK" then some "GBK"
  else if label = "shift_jis" then some "Shift_JIS"
  else if label = "EUC-JP" then some "EUC-JP"
  else if label = "EUC-KR" then some "EUC-KR"
  else if label = "KOI8-R" then some "KOI8-R"
  else if label = "ISO-8859-1" then some "windows-1252"
  else if label = "UTF-16LE" then some "UTF-16LE"
  else if label = "UTF-16BE" then some "UTF-16BE"
  else none

/-- The WHATWG UTF-8 decoder with replacement-character substitution,
as `encoding_rs` implements it: each maximal invalid subpart yields one
U+FFFD and sets the error flag.  Fuel-based so that it is structurally
recursive; every step consumes at least one byte, so a fuel equal to the
list length (see `utf8Decode`) is always sufficient. -/
def utf8DecodeAux : Nat → List Nat → List Nat × Bool
  | 0, _ => ([], false)
  | _ + 1, [] => ([], false)
  | f + 1, b :: rest =>
    if b ≤ 0x7F then
      let r := utf8DecodeAux f rest
      (b :: r.1, r.2)
    else if 0xC2 ≤ b ∧ b ≤ 0xDF then
      match rest with
      | c :: rest2 =>
        if 0x80 ≤ c ∧ c ≤ 0xBF then
          let r := utf8DecodeAux f rest2
          (((b - 0xC0) * 64 + (c - 0x80)) :: r.1, r.2)
        else
          let r := utf8DecodeAux f (c :: rest2)
          (0xFFFD :: r.1, true)
      | [] => ([0xFFFD], true)
    else if 0xE0 ≤ b ∧ b ≤ 0xEF then
      match rest with
      | c :: rest2 =>
        if (if b = 0xE0 then 0xA0 else 0x80) ≤ c ∧ c ≤ (if b = 0xED then 0x9F else 0xBF) then
          match rest2 with
          | d :: rest3 =>
            if 0x80 ≤ d ∧ d ≤ 0xBF then
              let r := utf8DecodeAux f rest3
              (((b - 0xE0) * 4096 + (c - 0x80) * 64 + (d - 0x80)) :: r.1, r.2)
            else
              let r := utf8DecodeAux f (d :: rest3)
              (0xFFFD :: r.1, true)
          | [] => ([0xFFFD], true)
        else
          let r := utf8DecodeAux f (c :: rest2)
          (0xFFFD :: r.1, true)
      | [] => ([0xFFFD], true)
    else if 0xF0 ≤ b ∧ b ≤ 0xF4 then
      match rest with
      | c :: rest2 =>
        if (if b = 0xF0 then 0x90 else 0x80) ≤ c ∧ c ≤ (if b = 0xF4 then 0x8F else 0xBF) then
          match rest2 with
          | d :: rest3 =>
            if 0x80 ≤ d ∧ d ≤ 0xBF then
              match rest3 with
              | e :: rest4 =>
                if 0x80 ≤ e ∧ e ≤ 0xBF then
                  let r := utf8DecodeAux f rest4
                  (((b - 0xF0) * 262144 + (c - 0x80) * 4096 + (d - 0x80) * 64 + (e - 0x80)) :: r.1, r.2)
                else
                  let r := utf8DecodeAux f (e :: rest4)
                  (0xFFFD :: r.1, true)
              | [] => ([0xFFFD], true)
            else
              let r := utf8DecodeAux f (d :: rest3)
              (0xFFFD :: r.1, true)
          | [] => ([0xFFFD], true)
        else
          let r := utf8DecodeAux f (c :: rest2)
          (0xFFFD :: r.1, true)
      | [] => ([0xFFFD], true)
    else
      let r := utf8DecodeAux f rest
      (0xFFFD :: r.1, true)

def utf8Decode (bs : List Nat) : List Nat × Bool := utf8DecodeAux bs.length bs

/-- The x-mac-cyrillic single-byte decode on the byte range the
witnesses exercise: ASCII maps to itself and 0x80-0x9F map to the
Cyrillic capitals U+0410-U+042F, exactly as in the WHATWG index; bytes
0xA0-0xFF (never exercised with this codec by any witness below) are
mapped to the non-Cyrillic placeholder U+2022. -/
def macCyrByte (b : Nat) : Nat :=
  if b < 0x80 then b
  else if b ≤ 0x9F then 0x410 + (b - 0x80)
  else 0x2022

/-- Decode capability used by the witnesses: exact WHATWG UTF-8;
x-mac-cyrillic via `macCyrByte` (never erring, as in the real index,
which is total); every other encoding decodes byte-identically without
errors — on the inputs the witnesses exercise (pure ASCII, or the bytes
EF BF BD which windows-1252 indeed maps to U+00EF U+00BF U+00BD) this
agrees with the real codecs in every respect the pipeline observes:
no replacement characters, no language hints. -/
def testDecode (name : String) (bs : List Nat) : List Nat × Bool :=
  if name = "UTF-8" then utf8Decode bs
  else if name = "x-mac-cyrillic" then (bs.map macCyrByte, false)
  else (bs, false)

/-! ### Declarative selection rule of the spec (§3): first-writer-wins
ordering used to characterize the decode loop. -/

def declStep (acc : Option Trial) (t : Trial) : Option Trial :=
  match acc with
  | none => some t
  | some b =>
    if fracLt b.score t.score || (fracEq t.score b.score && fracLt t.er b.er) then some t
    else some b

def firstWriterBest (ts : List Trial) : Option Trial := ts.foldl declStep none

def stateOf : Option Trial → LoopState
  | none => initState
  | some t => ⟨some t.name, t.text, t.er, t.score⟩

/-- Capability instance whose base guesser answers "ascii". -/
def testCaps : Caps := ⟨fun _ => "ascii", encodingRsLabelName, testDecode⟩

/-- Capability instance whose base guesser answers "EUC-KR". -/
def testCapsKr : Caps := ⟨fun _ => "EUC-KR", encodingRsLabelName, testDecode⟩

end CharsetCore

namespace CharsetCore

theorem readSampleAux_nil (f m : Nat) : readSampleAux f [] m = [] := by
  cases f <;> rfl

theorem readSampleAux_le (f : Nat) : ∀ (src : List Nat) (m : Nat), src.length ≤ f → 1 ≤ m →
    (readSampleAux f src m).length ≤ m + (CHUNK_SIZE - 1) := by
  induction f with
  | zero =>
    intro src m _ _
    simp [readSampleAux]
  | succ f ih =>
    intro src m h hm
    cases src with
    | nil => simp [readSampleAux]
    | cons b src2 =>
      simp only [readSampleAux, CHUNK_SIZE] at *
      by_cases hc : m ≤ ((b :: src2).take 8192).length
      · rw [if_pos hc]
        simp only [List.length_take, List.length_cons] at *
        omega
      · rw [if_neg hc]
        have hlen : ((b :: src2).drop 8192).length ≤ f := by
          simp only [List.length_drop, List.length_cons] at *
          omega
        have hm2 : 1 ≤ m - ((b :: src2).take 8192).length := by omega
        have hrec := ih ((b :: src2).drop 8192) (m - ((b :: src2).take 8192).length) hlen hm2
        simp only [CHUNK_SIZE] at hrec
        rw [List.length_append]
        simp only [List.length_take, List.length_cons] at *
        omega

theorem readSampleAux_le_dvd (f : Nat) : ∀ (src : List Nat) (m : Nat), src.length ≤ f → 1 ≤ m →
    CHUNK_SIZE ∣ m → (readSampleAux f src m).length ≤ m := by
  induction f with
  | zero =>
    intro src m _ _ _
    simp [readSampleAux]
  | succ f ih =>
    intro src m h hm hd
    have hm8 : CHUNK_SIZE ≤ m := Nat.le_of_dvd (by omega) hd
    simp only [CHUNK_SIZE] at hm8 hd
    cases src with
    | nil => simp [readSampleAux]
    | cons b src2 =>
      simp only [readSampleAux, CHUNK_SIZE] at *
      by_cases hc : m ≤ ((b :: src2).take 8192).length
      · rw [if_pos hc]
        simp only [List.length_take, List.length_cons] at *
        omega
      · rw [if_neg hc]
        by_cases hlen : (b :: src2).length ≤ 8192
        · have hrest : (b :: src2).drop 8192 = [] := List.drop_eq_nil_of_le hlen
          rw [hrest, readSampleAux_nil, List.length_append]
          simp only [List.length_nil, Nat.add_zero]
          omega
        · have hchunk : ((b :: src2).take 8192).length = 8192 := by
            simp only [List.length_take, List.length_cons] at *
            omega
          have hlen2 : ((b :: src2).drop 8192).length ≤ f := by
            simp only [List.length_drop, List.length_cons] at *
            omega
          have hm2 : 1 ≤ m - ((b :: src2).take 8192).length := by omega
          have hd2 : 8192 ∣ m - ((b :: src2).take 8192).length := by
            rw [hchunk]
            exact Nat.dvd_sub' hd dvd_rfl
          have hrec := ih ((b :: src2).drop 8192) (m - ((b :: src2).take 8192).length) hlen2 hm2 hd2
          rw [List.length_append]
          omega

theorem newline_spec (bs : List Nat) :
    (0 < (newline_counts bs).1 ↔ hasCRLF bs = true)
    ∧ (hasCRLF bs = false → (0 < (newline_counts bs).2.2 ↔ 10 ∈ bs))
    ∧ (hasCRLF bs = false → (0 < (newline_counts bs).2.1 ↔ 13 ∈ bs)) := by
  induction bs with
  | nil => simp [newline_counts, hasCRLF]
  | cons b tail ih =>
    cases tail with
    | nil =>
      by_cases hb13 : b = 13
      · subst hb13
        exact ⟨by decide, fun _ => by decide, fun _ => by decide⟩
      · by_cases hb10 : b = 10
        · subst hb10
          exact ⟨by decide, fun _ => by decide, fun _ => by decide⟩
        · have hc : newline_counts [b] = (0, 0, 0) := by simp [newline_counts, hb13, hb10]
          have hcr : hasCRLF [b] = false := rfl
          rw [hc, hcr]
          refine ⟨by simp, fun _ => ?_, fun _ => ?_⟩
          · show 0 < 0 ↔ 10 ∈ [b]
            constructor
            · intro hz; omega
            · intro hm
              rw [List.mem_singleton] at hm
              exact absurd hm.symm hb10
          · show 0 < 0 ↔ 13 ∈ [b]
            constructor
            · intro hz; omega
            · intro hm
              rw [List.mem_singleton] at hm
              exact absurd hm.symm hb13
    | cons b2 rest =>
      obtain ⟨ihA, ihB, ihC⟩ := ih
      by_cases h1 : b = 13 ∧ b2 = 10
      · have hcr : hasCRLF (b :: b2 :: rest) = true := by
          simp [hasCRLF, h1.1, h1.2]
        have hcount : 0 < (newline_counts (b :: b2 :: rest)).1 := by
          simp only [newline_counts, if_pos h1]
          simp
        rw [hcr]
        refine ⟨⟨fun _ => rfl, fun _ => hcount⟩, ?_, ?_⟩ <;> (intro hf; cases hf)
      · by_cases h2 : b = 13
        · have hb2 : ¬ b2 = 10 := fun hx => h1 ⟨h2, hx⟩
          have hcr : hasCRLF (b :: b2 :: rest) = hasCRLF (b2 :: rest) := by
            simp [hasCRLF, hb2]
          have hc : newline_counts (b :: b2 :: rest)
              = ((newline_counts (b2 :: rest)).1, (newline_counts (b2 :: rest)).2.1 + 1,
                 (newline_counts (b2 :: rest)).2.2) := by
            simp only [newline_counts, if_neg h1, if_pos h2]
          rw [hc, hcr]
          refine ⟨ihA, fun hf => ?_, fun _ => ?_⟩
          · show 0 < (newline_counts (b2 :: rest)).2.2 ↔ 10 ∈ b :: b2 :: rest
            rw [ihB hf]
            constructor
            · intro hmem; exact List.mem_cons_of_mem _ hmem
            · intro hmem
              rcases List.mem_cons.mp hmem with hx | hx
              · exact absurd (hx.trans h2) (by omega)
              · exact hx
          · show 0 < (newline_counts (b2 :: rest)).2.1 + 1 ↔ 13 ∈ b :: b2 :: rest
            constructor
            · intro _
              rw [h2]
              exact List.mem_cons_self _ _
            · intro _; omega
        · by_cases h3 : b = 10
          · have hcr : hasCRLF (b :: b2 :: rest) = hasCRLF (b2 :: rest) := by
              simp [hasCRLF, h2]
            have hc : newline_counts (b :: b2 :: rest)
                = ((newline_counts (b2 :: rest)).1, (newline_counts (b2 :: rest)).2.1,
                   (newline_counts (b2 :: rest)).2.2 + 1) := by
              simp only [newline_counts, if_neg h1, if_neg h2, if_pos h3]
            rw [hc, hcr]
            refine ⟨ihA, fun _ => ?_, fun hf => ?_⟩
            · show 0 < (newline_counts (b2 :: rest)).2.2 + 1 ↔ 10 ∈ b :: b2 :: rest
              constructor
              · intro _
                rw [h3]
                exact List.mem_cons_self _ _
              · intro _; omega
            · show 0 < (newline_counts (b2 :: rest)).2.1 ↔ 13 ∈ b :: b2 :: rest
              rw [ihC hf]
              constructor
              · intro hmem; exact List.mem_cons_of_mem _ hmem
              · intro hmem
                rcases List.mem_cons.mp hmem with hx | hx
                · exact absurd (hx.trans h3) (by omega)
                · exact hx
          · have hcr : hasCRLF (b :: b2 :: rest) = hasCRLF (b2 :: rest) := by
              simp [hasCRLF, h2]
            have hc : newline_counts (b :: b2 :: rest) = newline_counts (b2 :: rest) := by
              simp only [newline_counts, if_neg h1, if_neg h2, if_neg h3]
            rw [hc, hcr]
            refine ⟨ihA, fun hf => ?_, fun hf => ?_⟩
            · rw [ihB hf]
              constructor
              · intro hmem; exact List.mem_cons_of_mem _ hmem
              · intro hmem
                rcases List.mem_cons.mp hmem with hx | hx
                · exact absurd hx.symm h3
                · exact hx
            · rw [ihC hf]
              constructor
              · intro hmem; exact List.mem_cons_of_mem _ hmem
              · intro hmem
                rcases List.mem_cons.mp hmem with hx | hx
                · exact absurd hx.symm h2
                · exact hx

end CharsetCore

namespace CharsetCore

/-! ### Frac semantics -/

theorem fracLt_iff (a b : Frac) (ha : 0 < a.den) (hb : 0 < b.den) :
    fracLt a b = true ↔ a.toRat < b.toRat := by
  unfold fracLt Frac.toRat
  rw [decide_eq_true_eq,
    div_lt_div_iff₀ (by exact_mod_cast ha) (by exact_mod_cast hb)]
  exact_mod_cast Iff.rfl

theorem fracEq_iff (a b : Frac) (ha : 0 < a.den) (hb : 0 < b.den) :
    fracEq a b = true ↔ a.toRat = b.toRat := by
  unfold fracEq Frac.toRat
  rw [decide_eq_true_eq,
    div_eq_div_iff (by exact_mod_cast ha.ne') (by exact_mod_cast hb.ne')]
  exact_mod_cast Iff.rfl

theorem fracAdd_toRat (a b : Frac) (ha : 0 < a.den) (hb : 0 < b.den) :
    (fracAdd a b).toRat = a.toRat + b.toRat := by
  unfold fracAdd Frac.toRat
  have ha' : (a.den : ℚ) ≠ 0 := by exact_mod_cast ha.ne'
  have hb' : (b.den : ℚ) ≠ 0 := by exact_mod_cast hb.ne'
  push_cast
  field_simp
  try ring

theorem fracSub_toRat (a b : Frac) (ha : 0 < a.den) (hb : 0 < b.den) :
    (fracSub a b).toRat = a.toRat - b.toRat := by
  unfold fracSub Frac.toRat
  have ha' : (a.den : ℚ) ≠ 0 := by exact_mod_cast ha.ne'
  have hb' : (b.den : ℚ) ≠ 0 := by exact_mod_cast hb.ne'
  push_cast
  field_simp
  try ring

/-! ### Denominator positivity and value bounds for the score parts -/

theorem erOf_num (d : List Nat) :
    (erOf d).num = ((d.filter (fun c => decide (c = 0xFFFD))).length : Int) := rfl

theorem erOf_den (d : List Nat) : (erOf d).den = ((max d.length 1 : Nat) : Int) := rfl

theorem erOf_den_pos (d : List Nat) : 0 < (erOf d).den := by
  rw [erOf_den]
  exact_mod_cast (by omega : 0 < max d.length 1)

theorem erOf_nonneg (d : List Nat) : 0 ≤ (erOf d).toRat := by
  unfold Frac.toRat
  rw [erOf_num, erOf_den]
  positivity

theorem erOf_le_one (d : List Nat) : (erOf d).toRat ≤ 1 := by
  unfold Frac.toRat
  rw [erOf_num, erOf_den]
  rw [div_le_one (by exact_mod_cast (by omega : 0 < max d.length 1))]
  have h : (d.filter (fun c => decide (c = 0xFFFD))).length ≤ max d.length 1 :=
    le_trans (List.length_filter_le _ _) (Nat.le_max_left _ _)
  exact_mod_cast h

theorem seed_bonus_den (label seed : String) : 0 < (seed_bonus label seed).den := by
  unfold seed_bonus
  split_ifs <;> norm_num

theorem seed_bonus_lb (label seed : String) : 0 ≤ (seed_bonus label seed).toRat := by
  unfold seed_bonus
  split_ifs <;> norm_num [Frac.toRat]

theorem arabic_bonus_den (lang : List String) (label : String) : 0 < (arabic_bonus lang label).den := by
  unfold arabic_bonus
  split_ifs <;> norm_num

theorem arabic_bonus_lb (lang : List String) (label : String) : 0 ≤ (arabic_bonus lang label).toRat := by
  unfold arabic_bonus
  split_ifs <;> norm_num [Frac.toRat]

theorem turkish_bonus_den (lang : List String) (label : String) : 0 < (turkish_bonus lang label).den := by
  unfold turkish_bonus
  split_ifs <;> norm_num

theorem turkish_bonus_lb (lang : List String) (label : String) : 0 ≤ (turkish_bonus lang label).toRat := by
  unfold turkish_bonus
  split_ifs <;> norm_num [Frac.toRat]

theorem korean_bonus_den (lang : List String) (label : String) : 0 < (korean_bonus lang label).den := by
  unfold korean_bonus
  split_ifs <;> norm_num

theorem korean_bonus_lb (lang : List String) (label : String) : 0 ≤ (korean_bonus lang label).toRat := by
  unfold korean_bonus
  split_ifs <;> norm_num [Frac.toRat]

theorem cyrillic_bonus_den (lang : List String) (label : String) : 0 < (cyrillic_bonus lang label).den := by
  unfold cyrillic_bonus
  split_ifs <;> norm_num

theorem cyrillic_bonus_lb (lang : List String) (label : String) : 0 ≤ (cyrillic_bonus lang label).toRat := by
  unfold cyrillic_bonus
  split_ifs <;> norm_num [Frac.toRat]

theorem arabic_penalty_den (lang : List String) (label : String) : 0 < (arabic_penalty lang label).den := by
  unfold arabic_penalty
  split_ifs <;> norm_num

theorem arabic_penalty_lb (lang : List String) (label : String) : -(1/2 : ℚ) ≤ (arabic_penalty lang label).toRat := by
  unfold arabic_penalty
  split_ifs <;> norm_num [Frac.toRat]

theorem cyrillic_penalty_den (lang : List String) (label : String) : 0 < (cyrillic_penalty lang label).den := by
  unfold cyrillic_penalty
  split_ifs <;> norm_num

theorem cyrillic_penalty_lb (lang : List String) (label : String) : -(9/10 : ℚ) ≤ (cyrillic_penalty lang label).toRat := by
  unfold cyrillic_penalty
  split_ifs <;> norm_num [Frac.toRat]

theorem mac_byte_bonus_den (hints : List String) (label : String) : 0 < (mac_byte_bonus hints label).den := by
  unfold mac_byte_bonus
  split_ifs <;> norm_num

theorem mac_byte_bonus_lb (hints : List String) (label : String) : 0 ≤ (mac_byte_bonus hints label).toRat := by
  unfold mac_byte_bonus
  split_ifs <;> norm_num [Frac.toRat]

theorem base_den_pos (d : List Nat) : 0 < (fracSub ⟨1, 1⟩ (erOf d)).den := by
  show 0 < 1 * (erOf d).den
  rw [one_mul]
  exact erOf_den_pos d

theorem base_lb (d : List Nat) : (0 : ℚ) ≤ (fracSub ⟨1, 1⟩ (erOf d)).toRat := by
  rw [fracSub_toRat _ _ (by norm_num) (erOf_den_pos d)]
  have h1 : Frac.toRat ⟨1, 1⟩ = 1 := by norm_num [Frac.toRat]
  rw [h1]
  linarith [erOf_le_one d]

theorem scoreOf_den_pos (seed : String) (hints : List String) (label : String) (d : List Nat) :
    0 < (scoreOf seed hints label d).den := by
  unfold scoreOf
  exact mul_pos (mul_pos (mul_pos (mul_pos (mul_pos (mul_pos (mul_pos (mul_pos
    (base_den_pos d) (seed_bonus_den label seed)) (arabic_bonus_den _ label))
    (turkish_bonus_den _ label)) (korean_bonus_den _ label)) (cyrillic_bonus_den _ label))
    (arabic_penalty_den _ label)) (cyrillic_penalty_den _ label)) (mac_byte_bonus_den hints label)

theorem scoreOf_lb (seed : String) (hints : List String) (label : String) (d : List Nat) :
    (-2 : ℚ) ≤ (scoreOf seed hints label d).toRat := by
  unfold scoreOf
  have h0 := base_den_pos d
  have h1 : 0 < (fracAdd (fracSub ⟨1, 1⟩ (erOf d)) (seed_bonus label seed)).den :=
    mul_pos h0 (seed_bonus_den label seed)
  have h2 : 0 < (fracAdd (fracAdd (fracSub ⟨1, 1⟩ (erOf d)) (seed_bonus label seed)) (arabic_bonus (detect_language_hints d) label)).den :=
    mul_pos h1 (arabic_bonus_den _ label)
  have h3 := mul_pos h2 (turkish_bonus_den (detect_language_hints d) label)
  have h4 := mul_pos h3 (korean_bonus_den (detect_language_hints d) label)
  have h5 := mul_pos h4 (cyrillic_bonus_den (detect_language_hints d) label)
  have h6 := mul_pos h5 (arabic_penalty_den (detect_language_hints d) label)
  have h7 := mul_pos h6 (cyrillic_penalty_den (detect_language_hints d) label)
  rw [fracAdd_toRat _ _ h7 (mac_byte_bonus_den hints label),
      fracAdd_toRat _ _ h6 (cyrillic_penalty_den _ label),
      fracAdd_toRat _ _ h5 (arabic_penalty_den _ label),
      fracAdd_toRat _ _ h4 (cyrillic_bonus_den _ label),
      fracAdd_toRat _ _ h3 (korean_bonus_den _ label),
      fracAdd_toRat _ _ h2 (turkish_bonus_den _ label),
      fracAdd_toRat _ _ h1 (arabic_bonus_den _ label),
      fracAdd_toRat _ _ h0 (seed_bonus_den label seed)]
  linarith [base_lb d, seed_bonus_lb label seed, arabic_bonus_lb (detect_language_hints d) label,
    turkish_bonus_lb (detect_language_hints d) label, korean_bonus_lb (detect_language_hints d) label,
    cyrillic_bonus_lb (detect_language_hints d) label, arabic_penalty_lb (detect_language_hints d) label,
    cyrillic_penalty_lb (detect_language_hints d) label, mac_byte_bonus_lb hints label]

/-! ### The trial structure of the loop -/

theorem trialOf_shape (caps : Caps) (seed : String) (hints : List String) (slice : List Nat)
    (label : String) (t : Trial) (h : trialOf caps seed hints slice label = some t) :
    t.score = scoreOf seed hints label (caps.decode ((caps.for_label label).getD "") slice).1
      ∧ t.er = erOf (caps.decode ((caps.for_label label).getD "") slice).1 := by
  unfold trialOf at h
  cases hl : caps.for_label label with
  | none => rw [hl] at h; cases h
  | some name =>
    rw [hl] at h
    simp only [Option.some_inj] at h
    subst h
    exact ⟨rfl, rfl⟩

theorem trial_score_den_pos (caps : Caps) (seed : String) (hints : List String) (slice : List Nat)
    (label : String) (t : Trial) (h : trialOf caps seed hints slice label = some t) :
    0 < t.score.den := by
  rw [(trialOf_shape caps seed hints slice label t h).1]
  exact scoreOf_den_pos _ _ _ _

theorem trial_score_lb (caps : Caps) (seed : String) (hints : List String) (slice : List Nat)
    (label : String) (t : Trial) (h : trialOf caps seed hints slice label = some t) :
    (-2 : ℚ) ≤ t.score.toRat := by
  rw [(trialOf_shape caps seed hints slice label t h).1]
  exact scoreOf_lb _ _ _ _

theorem F32_MIN_lt (s : Frac) (hden : 0 < s.den) (hlb : (-2 : ℚ) ≤ s.toRat) :
    fracLt F32_MIN s = true := by
  rw [fracLt_iff _ _ (by norm_num [F32_MIN]) hden]
  have hval : F32_MIN.toRat = -(2 ^ 128 - 2 ^ 104 : ℚ) := by
    norm_num [F32_MIN, Frac.toRat]
  rw [hval]
  nlinarith [hlb]

theorem betterB_init (t : Trial) (hden : 0 < t.score.den) (hlb : (-2 : ℚ) ≤ t.score.toRat) :
    betterB t initState = true := by
  unfold betterB initState
  rw [F32_MIN_lt t.score hden hlb]
  rfl

/-! ### First-writer-wins characterization of the loop -/

theorem loopStep_stateOf_none (t : Trial) (hb : betterB t initState = true) :
    loopStep initState t = (stateOf (some t), breakB t) := by
  unfold loopStep
  rw [hb]
  rfl

theorem betterB_stateOf_some (t b : Trial) :
    betterB t (stateOf (some b)) = (fracLt b.score t.score || (fracEq t.score b.score && fracLt t.er b.er)) := rfl

theorem loopStep_stateOf_some (b t : Trial) :
    loopStep (stateOf (some b)) t
      = (stateOf (declStep (some b) t), if betterB t (stateOf (some b)) then breakB t else false) := by
  simp only [loopStep, declStep]
  by_cases h : betterB t (stateOf (some b)) = true
  · have h2 : (fracLt b.score t.score || (fracEq t.score b.score && fracLt t.er b.er)) = true := by
      rw [← betterB_stateOf_some]
      exact h
    rw [if_pos h, if_pos h2]
    simp [stateOf, h]
    exact fun _ => h
  · have hb : betterB t (stateOf (some b)) = false := by
      cases hx : betterB t (stateOf (some b))
      · rfl
      · exact absurd hx h
    have h2 : ¬ (fracLt b.score t.score || (fracEq t.score b.score && fracLt t.er b.er)) = true := by
      rw [← betterB_stateOf_some, hb]
      simp
    rw [if_neg h, if_neg h2]
    simp [hb]

theorem decodeLoop_writer (caps : Caps) (seed : String) (hints : List String) (slice : List Nat) :
    ∀ (labels : List String) (acc : Option Trial),
      (decodeLoop caps seed hints slice (stateOf acc) labels).1
        = stateOf (((decodeLoop caps seed hints slice (stateOf acc) labels).2.filterMap
            (trialOf caps seed hints slice)).foldl declStep acc) := by
  intro labels
  induction labels with
  | nil =>
    intro acc
    simp [decodeLoop]
  | cons l rest ih =>
    intro acc
    cases htr : trialOf caps seed hints slice l with
    | none =>
      simp only [decodeLoop, htr]
      exact ih acc
    | some t =>
      have hstep : loopStep (stateOf acc) t
          = (stateOf (declStep acc t), if betterB t (stateOf acc) then breakB t else false) := by
        cases acc with
        | none =>
          have hb : betterB t initState = true := by
            exact betterB_init t (trial_score_den_pos caps seed hints slice l t htr)
              (trial_score_lb caps seed hints slice l t htr)
          show loopStep initState t = _
          rw [loopStep_stateOf_none t hb]
          show _ = (stateOf (declStep none t), if betterB t initState then breakB t else false)
          rw [hb]
          rfl
        | some b => exact loopStep_stateOf_some b t
      simp only [decodeLoop, htr, hstep]
      by_cases hbrk : (if betterB t (stateOf acc) then breakB t else false) = true
      · rw [if_pos hbrk]
        simp only [List.filterMap_cons, htr, List.filterMap_nil, List.foldl_cons, List.foldl_nil]
      · rw [if_neg hbrk]
        simp only [List.filterMap_cons, htr, List.foldl_cons]
        exact ih (declStep acc t)

end CharsetCore

namespace CharsetCore

/-! ### Stream copy agreement (C9) -/

theorem trialOfStream_eq (caps : Caps) (seed : String) (hints : List String)
    (slice : List Nat) (label : String) :
    trialOfStream caps seed hints slice label = trialOf caps seed hints slice label := rfl

theorem loopStepStream_eq (st : LoopState) (t : Trial) :
    loopStepStream st t = loopStep st t := rfl

theorem decodeLoopStream_eq (caps : Caps) (seed : String) (hints : List String) (slice : List Nat) :
    ∀ (labels : List String) (st : LoopState),
      decodeLoopStream caps seed hints slice st labels = decodeLoop caps seed hints slice st labels := by
  intro labels
  induction labels with
  | nil => intro st; rfl
  | cons l rest ih =>
    intro st
    simp only [decodeLoopStream, decodeLoop, trialOfStream_eq, loopStepStream_eq, ih]

theorem seedOfStream_eq (caps : Caps) (buffer : List Nat) :
    seedOfStream caps buffer = seedOf caps buffer := rfl

theorem encodingsToTryStream_eq (seed : String) :
    encodingsToTryStream seed = encodingsToTry seed := rfl

theorem finalizeEncodingStream_eq (best : Option String) :
    finalizeEncodingStream best = finalizeEncoding best := rfl

theorem analyzeLoopOfStream_eq (caps : Caps) (buffer : List Nat) :
    analyzeLoopOfStream caps buffer = analyzeLoopOf caps buffer := by
  unfold analyzeLoopOfStream analyzeLoopOf
  rw [seedOfStream_eq, encodingsToTryStream_eq, decodeLoopStream_eq]

theorem analyzeEncodingStream_eq (caps : Caps) (buffer : List Nat) :
    analyzeEncodingStream caps buffer = analyzeEncoding caps buffer := by
  unfold analyzeEncodingStream analyzeEncoding
  rw [analyzeLoopOfStream_eq, finalizeEncodingStream_eq]

theorem analyzeBytes_encoding (caps : Caps) (buffer : List Nat) :
    (analyzeBytes caps buffer).encoding = analyzeEncoding caps buffer := by
  with_reducible rfl

theorem analyzeEncoding_eq (caps : Caps) (buffer : List Nat) :
    analyzeEncoding caps buffer = finalizeEncoding (analyzeLoopOf caps buffer).best_encoding := rfl

/-! ### Claim theorems -/

/-- C1: every analysis report carries, alongside the encoding, a newlines
field classified from one scan of the raw sample with the priority: CRLF
if any CR-LF pair occurs anywhere (even when bare LF or bare CR also
occur), else LF if any LF byte occurs, else CR if any CR byte occurs,
else LF when no line terminator is present.  (The classifier is modelled
from the spec; it is absent from src/src/core/lib.rs.) -/
theorem thm_C1_newlines (caps : Caps) (bs : List Nat) :
    (reportOf caps bs).newlines
      = (if hasCRLF bs = true then NewlineStyle.CRLF
         else if 10 ∈ bs then NewlineStyle.LF
         else if 13 ∈ bs then NewlineStyle.CR
         else NewlineStyle.LF) := by
  obtain ⟨hA, hB, hC⟩ := newline_spec bs
  show (if 0 < (newline_counts bs).1 then NewlineStyle.CRLF
        else if 0 < (newline_counts bs).2.2 then NewlineStyle.LF
        else if 0 < (newline_counts bs).2.1 then NewlineStyle.CR
        else NewlineStyle.LF) = _
  by_cases hcr : hasCRLF bs = true
  · rw [if_pos (hA.mpr hcr), if_pos hcr]
  · have hcrf : hasCRLF bs = false := by
      cases hx : hasCRLF bs
      · rfl
      · exact absurd hx hcr
    have hA0 : ¬ 0 < (newline_counts bs).1 := fun hp => hcr (hA.mp hp)
    rw [if_neg hA0, if_neg hcr]
    by_cases h10 : 10 ∈ bs
    · rw [if_pos ((hB hcrf).mpr h10), if_pos h10]
    · have hB0 : ¬ 0 < (newline_counts bs).2.2 := fun hp => h10 ((hB hcrf).mp hp)
      rw [if_neg hB0, if_neg h10]
      by_cases h13 : 13 ∈ bs
      · rw [if_pos ((hC hcrf).mpr h13), if_pos h13]
      · have hC0 : ¬ 0 < (newline_counts bs).2.1 := fun hp => h13 ((hC hcrf).mp hp)
        rw [if_neg hC0, if_neg h13]

/-- C2 counterexample: the sample EF BB BF 80 starts with the UTF-8 BOM,
yet the analysis (under the realistic codec capability) reports
mac_cyrillic, not utf_8: the BOM only seeds the candidate list with the
unsupported label utf_8, and x-mac-cyrillic wins the decode loop. -/
theorem thm_C2_cex :
    (analyzeBytes testCaps [0xEF, 0xBB, 0xBF, 0x80]).encoding = "mac_cyrillic"
    ∧ (analyzeBytes testCaps [0xEF, 0xBB, 0xBF, 0x80]).encoding ≠ "utf_8" :=
  ⟨by decide, by decide⟩

/-- C2 amended: a sample prefixed with EF BB BF makes the BOM check fix
the seed label utf_8 and the skip length 3, but the final encoding is
whatever the decode-and-score loop selects over the bytes after the BOM;
it is not always utf_8. -/
theorem thm_C2_amended (caps : Caps) (rest : List Nat) :
    seedOf caps (0xEF :: 0xBB :: 0xBF :: rest) = ("utf_8", 3)
    ∧ (analyzeBytes caps (0xEF :: 0xBB :: 0xBF :: rest)).encoding
        = finalizeEncoding ((decodeLoop caps "utf_8"
            (analyze_byte_patterns (0xEF :: 0xBB :: 0xBF :: rest)) rest initState
            (encodingsToTry "utf_8")).1.best_encoding) := by
  refine ⟨rfl, ?_⟩
  rw [analyzeBytes_encoding, analyzeEncoding_eq]
  have h2 : analyzeLoopOf caps (0xEF :: 0xBB :: 0xBF :: rest)
      = (decodeLoop caps "utf_8" (analyze_byte_patterns (0xEF :: 0xBB :: 0xBF :: rest)) rest
          initState (encodingsToTry "utf_8")).1 := by
    unfold analyzeLoopOf
    rfl
  rw [h2]

/-- C3 counterexample: the full-read call shape does not fail on a
zero-byte source; it returns a normal utf_8 result with empty text. -/
theorem thm_C3_cex :
    from_path testCaps [] = Except.ok ⟨"utf_8", [], []⟩ := rfl

/-- C3 amended: a zero-byte source is rejected with the explicit
empty-source error by the bounded-sample shape only; the full-read shape
proceeds and returns a result. -/
theorem thm_C3_amended (caps : Caps) (maxSampleSize : Option Nat) :
    from_path_stream caps [] maxSampleSize = Except.error "File is empty"
    ∧ from_path caps [] = Except.ok (analyzeBytes caps []) :=
  ⟨rfl, rfl⟩

/-- C4 counterexample: with max_sample_size 1 and a two-byte source the
sample (and the raw_bytes of the result) has length 2 > 1: the cap is
checked only after a whole chunk was appended. -/
theorem thm_C4_cex :
    (readSample [0x61, 0x62] 1).length = 2
    ∧ ¬ (readSample [0x61, 0x62] 1).length ≤ 1
    ∧ from_path_stream testCaps [0x61, 0x62] (some 1)
        = Except.ok ⟨"utf_8", [0x61, 0x62], [0x61, 0x62]⟩ :=
  ⟨by decide, by decide, rfl⟩

/-- C4 amended: the bounded-sample read stops at the first chunk
boundary at or beyond max_sample_size, so the sample length is at most
max_sample_size + (CHUNK_SIZE - 1); when max_sample_size is a positive
multiple of the 8 KiB chunk size (the 1 MiB default included), the
sample length is at most max_sample_size. -/
theorem thm_C4_amended (src : List Nat) (m : Nat) (hm : 1 ≤ m) :
    (readSample src m).length ≤ m + (CHUNK_SIZE - 1)
    ∧ (CHUNK_SIZE ∣ m → (readSample src m).length ≤ m) :=
  ⟨readSampleAux_le src.length src m le_rfl hm,
   fun hd => readSampleAux_le_dvd src.length src m le_rfl hm hd⟩

theorem thm_C4_amended_witness :
    (1 ≤ 8192
     ∧ (readSample [0x61, 0x62] 8192).length ≤ 8192 + (CHUNK_SIZE - 1))
    ∧ (CHUNK_SIZE ∣ 8192 → (readSample [0x61, 0x62] 8192).length ≤ 8192) :=
  ⟨⟨by decide, (thm_C4_amended [0x61, 0x62] 8192 (by decide)).1⟩,
   (thm_C4_amended [0x61, 0x62] 8192 (by decide)).2⟩

/-- C5 counterexample: on the sample EF BF BD followed by 29 ASCII
bytes, the first decoded candidate UTF-8 has a trial with had = false
(the codec substituted nothing: EF BF BD is a literal U+FFFD) and score
610/600 > 1, yet the loop goes on to decode 16 further candidates
(17 in total): the early exit additionally requires a zero count of
U+FFFD characters in the decoded text. -/
theorem thm_C5_cex :
    trialOf testCaps "UTF-8"
        (analyze_byte_patterns (0xEF :: 0xBF :: 0xBD :: List.replicate 29 0x61))
        (0xEF :: 0xBF :: 0xBD :: List.replicate 29 0x61) "UTF-8"
      = some ⟨"UTF-8", 0xFFFD :: List.replicate 29 0x61, ⟨1, 30⟩, ⟨610, 600⟩, false⟩
    ∧ fracLt ⟨1, 1⟩ ⟨610, 600⟩ = true
    ∧ ((decodeLoop testCaps "UTF-8"
          (analyze_byte_patterns (0xEF :: 0xBF :: 0xBD :: List.replicate 29 0x61))
          (0xEF :: 0xBF :: 0xBD :: List.replicate 29 0x61) initState
          (encodingsToTry "UTF-8")).2).length = 17 :=
  ⟨by decide, by decide, by decide⟩

/-- C5 amended, both directions: when the current candidate's trial
exists, the loop stops immediately — the decoded-label list ends at the
current label — exactly when the trial replaced the running best (strict
improvement per the ordering rule) and had no codec substitutions and a
zero U+FFFD count and a score above 1.0; whenever any of those
conditions fails, scanning continues into the remaining candidates from
the stepped state (best updated on a replacement, kept otherwise). -/
theorem thm_C5_amended (caps : Caps) (seed : String) (hints : List String) (slice : List Nat)
    (st : LoopState) (label : String) (rest : List String) (t : Trial)
    (h : trialOf caps seed hints slice label = some t) :
    ((betterB t st = true ∧ t.had = false ∧ fracEq t.er ⟨0, 1⟩ = true
        ∧ fracLt ⟨1, 1⟩ t.score = true) →
      decodeLoop caps seed hints slice st (label :: rest)
        = (⟨some t.name, t.text, t.er, t.score⟩, [label]))
    ∧ (¬ (betterB t st = true ∧ t.had = false ∧ fracEq t.er ⟨0, 1⟩ = true
        ∧ fracLt ⟨1, 1⟩ t.score = true) →
      decodeLoop caps seed hints slice st (label :: rest)
        = ((decodeLoop caps seed hints slice (loopStep st t).1 rest).1,
           label :: (decodeLoop caps seed hints slice (loopStep st t).1 rest).2)) := by
  have hsnd : (loopStep st t).2 = true
      ↔ (betterB t st = true ∧ t.had = false ∧ fracEq t.er ⟨0, 1⟩ = true
          ∧ fracLt ⟨1, 1⟩ t.score = true) := by
    unfold loopStep breakB
    by_cases hb : betterB t st = true
    · rw [if_pos hb]
      simp [hb, Bool.and_eq_true, Bool.not_eq_true', and_assoc]
    · rw [if_neg hb]
      simp [hb]
  constructor
  · intro hc
    have hb2 : (loopStep st t).2 = true := hsnd.mpr hc
    have h1 : (loopStep st t).1 = ⟨some t.name, t.text, t.er, t.score⟩ := by
      unfold loopStep
      rw [if_pos hc.1]
    simp only [decodeLoop, h]
    rw [if_pos hb2, h1]
  · intro hc
    have hb2 : (loopStep st t).2 = false := by
      cases hx : (loopStep st t).2
      · rfl
      · exact absurd (hsnd.mp hx) hc
    simp only [decodeLoop, h]
    rw [if_neg (by rw [hb2]; simp : ¬ (loopStep st t).2 = true)]

theorem thm_C5_amended_witness :
    trialOf testCaps "UTF-8" [] [0x61] "UTF-8" = some ⟨"UTF-8", [0x61], ⟨0, 1⟩, ⟨21, 20⟩, false⟩
    ∧ decodeLoop testCaps "UTF-8" [] [0x61] initState ("UTF-8" :: ["x-mac-cyrillic"])
        = (⟨some "UTF-8", [0x61], ⟨0, 1⟩, ⟨21, 20⟩⟩, ["UTF-8"]) :=
  ⟨by decide,
   (thm_C5_amended testCaps "UTF-8" [] [0x61] initState "UTF-8" ["x-mac-cyrillic"]
     ⟨"UTF-8", [0x61], ⟨0, 1⟩, ⟨21, 20⟩, false⟩ (by decide)).1
     ⟨by decide, by decide, by decide, by decide⟩⟩

/-- C6: a buffer starting with FF FE 00 00 (the UTF-32LE mark) is
classified by the BOM sniffer of both call shapes as UTF-16LE with skip
length 2, because the two-byte FF FE check runs before the four-byte
check; the UTF-32LE branch is never reached for such a buffer. -/
theorem thm_C6_bom_order (caps : Caps) (rest : List Nat) :
    seedOf caps (0xFF :: 0xFE :: 0x00 :: 0x00 :: rest) = ("UTF-16LE", 2)
    ∧ seedOfStream caps (0xFF :: 0xFE :: 0x00 :: 0x00 :: rest) = ("UTF-16LE", 2) :=
  ⟨rfl, rfl⟩

/-- C7: across the decode loop the running best is replaced exactly
under strict improvement — strictly greater score, or equal score and
strictly lower error ratio — so the final state equals the
first-writer-wins selection over the decoded trials in candidate
order. -/
theorem thm_C7_first_writer (caps : Caps) (seed : String) (hints : List String)
    (slice : List Nat) (labels : List String) :
    (decodeLoop caps seed hints slice initState labels).1
      = stateOf (firstWriterBest
          (((decodeLoop caps seed hints slice initState labels).2).filterMap
            (trialOf caps seed hints slice))) :=
  decodeLoop_writer caps seed hints slice labels none

theorem normalize_windows949 : normalize_encoding_name "windows-949" = "cp949" := by decide

/-- C8: whenever the decode loop's winning label denotes EUC-KR — its
lowercase form contains "euc-kr" or "euc_kr" — the post-processing
rewrites it to windows-949 before normalization, so the reported
encoding is cp949. -/
theorem thm_C8_euckr_cp949 (caps : Caps) (buffer : List Nat) (s : String)
    (hwin : (analyzeLoopOf caps buffer).best_encoding = some s)
    (heuc : (strContains (strLower s) "euc-kr" || strContains (strLower s) "euc_kr") = true) :
    (analyzeBytes caps buffer).encoding = "cp949" := by
  rw [analyzeBytes_encoding, analyzeEncoding_eq, hwin]
  unfold finalizeEncoding
  simp only [Option.getD_some]
  rw [if_pos heuc]
  exact normalize_windows949

theorem thm_C8_witness : (analyzeBytes testCapsKr [0x61, 0x62]).encoding = "cp949" :=
  thm_C8_euckr_cp949 testCapsKr [0x61, 0x62] "EUC-KR" (by decide) (by decide)

/-- C9: on every nonempty byte sample the analysis of the full-read path
and the analysis of the bounded-sample path (a textual copy in the
source) produce identical results — same encoding, same raw bytes, same
decoded text. -/
theorem thm_C9_pipelines_agree (caps : Caps) (buffer : List Nat) (hne : buffer ≠ []) :
    analyzeBytesStream caps buffer = analyzeBytes caps buffer := by
  clear hne
  unfold analyzeBytesStream analyzeBytes
  rw [analyzeEncodingStream_eq, analyzeLoopOfStream_eq]

theorem thm_C9_witness : analyzeBytesStream testCaps [0x61] = analyzeBytes testCaps [0x61] :=
  thm_C9_pipelines_agree testCaps [0x61] (by decide)

/-- C10: the analysis is deterministic — it is a pure function of the
sample and the capability instances, so two runs on the same sample
yield identical results (and the spec-modelled newline report is equally
deterministic). -/
theorem thm_C10_deterministic (caps : Caps) (bs : List Nat) :
    analyzeBytes caps bs = analyzeBytes caps bs
    ∧ (analyzeBytes caps bs).encoding = (analyzeBytes caps bs).encoding
    ∧ (analyzeBytes caps bs).decoded_text = (analyzeBytes caps bs).decoded_text
    ∧ reportOf caps bs = reportOf caps bs :=
  ⟨rfl, rfl, rfl, rfl⟩

end CharsetCore
